import Mathlib

/-!
Verification of the galileo map-tile delivery layer against its
natural-language specification.

The development shallowly embeds the relevant Rust sources:

  - src/galileo/src/layer/pmtiles_http_cache.rs
      (CachedHttpBackend: get_next_range_at_or_after, record_range,
       fetch_and_store, read; sanitize_for_fs; tiles_for_bbox_and_res)
  - src/galileo/src/layer/pmtiles.rs (the gzip-detecting vector-tile load path)
  - src/galileo/src/layer/tiles.rs (TilesContainer::update_displayed_tiles)

Modelling conventions:

  - machine integers (usize, u64, u32, i32) become Nat or Int; Rust usize
    subtraction in the cache code never underflows on the paths modelled
    (truncated Nat subtraction is noted where it stands for usize);
  - f64 and f32 values become exact rationals.  Every concrete claim settled
    below is robust to this choice: the decisive comparisons have margins
    many orders of magnitude larger than one ulp of the corresponding
    floating-point computation;
  - the sled index tree becomes a list of (offset, length) pairs kept sorted
    by key, the span files a lookup list keyed by (offset, length);
  - the HTTP client becomes a function from a requested (offset, length) to a
    response (status code and body); network-level transport failures are out
    of scope (every claim conditions on a response being received);
  - slice-index and copy_from_slice panics are modelled as an explicit
    crash outcome, and loop non-termination as an explicit diverge outcome
    (the loop is run on fuel that suffices whenever the loop makes progress).
-/

/- The Batteries rational-number operations are irreducible by default, which
blocks evaluation of concrete rational arithmetic inside decide; restoring
the default transparency makes the concrete scenarios below computable. -/
set_option allowUnsafeReducibility true in
attribute [semireducible] Rat.add Rat.sub Rat.mul Rat.inv Rat.ofScientific

deriving instance DecidableEq for Except

/-! ### Byte-range cache (src/galileo/src/layer/pmtiles_http_cache.rs) -/

/-- Error type of the pmtiles crate, restricted to the variants this code can
produce.  Http models the reqwest status error produced by error_for_status. -/
inductive PmtError where
  | Http : Nat → PmtError
  | RangeRequestsUnsupported : PmtError
  | ResponseBodyTooLong : Nat → Nat → PmtError
  | Reading : PmtError
deriving DecidableEq, Repr

/-- An HTTP response to a range request: status code and body bytes. -/
structure HttpResp where
  status : Nat
  body : List Nat
deriving DecidableEq, Repr

/-- Cache state of a CachedHttpBackend: the sled index tree (offset to length,
kept sorted by offset, one entry per offset), the span files keyed by
(offset, length), plus ghost logs of network fetches and index removals
(the logs record the calls made; no code path reads them). -/
structure CacheState where
  index : List (Nat × Nat)
  files : List ((Nat × Nat) × List Nat)
  fetchLog : List (Nat × Nat)
  removeLog : List Nat
deriving DecidableEq, Repr

/-- Insert (offset, length) into the sorted index, replacing an entry with the
same offset: models sled Tree::insert for this key encoding (big-endian u64
keys preserve numeric order). -/
def insertIdx : List (Nat × Nat) → Nat → Nat → List (Nat × Nat)
  | [], k, v => [(k, v)]
  | e :: rest, k, v =>
    if k < e.1 then (k, v) :: e :: rest
    else if k = e.1 then (k, v) :: rest
    else e :: insertIdx rest k v

/-- Lookup of a span file by its (offset, length) key. -/
def lookupFile : List ((Nat × Nat) × List Nat) → (Nat × Nat) → Option (List Nat)
  | [], _ => none
  | e :: rest, key => if key = e.1 then some e.2 else lookupFile rest key

/-- std::fs::write of a span file (later writes shadow earlier ones). -/
def insertFile (fs : List ((Nat × Nat) × List Nat)) (key : Nat × Nat)
    (bytes : List Nat) : List ((Nat × Nat) × List Nat) :=
  (key, bytes) :: fs

/-- CachedHttpBackend::get_next_range_at_or_after.  First query: the entry with
the greatest key at or below the cursor, kept only if it still extends past the
cursor; otherwise the entry with the smallest key at or after the cursor. -/
def get_next_range_at_or_after (idx : List (Nat × Nat)) (a : Nat) :
    Option (Nat × Nat) :=
  match (idx.filter (fun e => e.1 ≤ a)).getLast? with
  | some e => if a < e.1 + e.2 then some e else (idx.filter (fun e => a ≤ e.1)).head?
  | none => (idx.filter (fun e => a ≤ e.1)).head?

/-- CachedHttpBackend::record_range: record (offset, length) in the index. -/
def record_range (st : CacheState) (offset length : Nat) : CacheState :=
  { st with index := insertIdx st.index offset length }

/-- Tree::remove of a stale index entry, with a ghost log of the removal. -/
def removeIdx (st : CacheState) (k : Nat) : CacheState :=
  { st with index := st.index.filter (fun e => e.1 ≠ k),
            removeLog := st.removeLog ++ [k] }

/-- CachedHttpBackend::fetch_and_store.  The response passes through
error_for_status first (4xx and 5xx become an Http status error), then any
remaining status other than 206 is RangeRequestsUnsupported, then a body
longer than requested is ResponseBodyTooLong; otherwise the body is written to
the span file, the range is recorded in the index, and the body returned. -/
def fetch_and_store (server : Nat → Nat → HttpResp) (st : CacheState)
    (offset length : Nat) : Except PmtError (List Nat × CacheState) :=
  let resp := server offset length
  if 400 ≤ resp.status ∧ resp.status ≤ 599 then .error (.Http resp.status)
  else if resp.status ≠ 206 then .error .RangeRequestsUnsupported
  else if length < resp.body.length then
    .error (.ResponseBodyTooLong resp.body.length length)
  else .ok (resp.body,
    record_range
      { st with files := insertFile st.files (offset, length) resp.body,
                fetchLog := st.fetchLog ++ [(offset, length)] }
      offset length)

/-- Outcome of a read call: success, a returned error, a panic of the Rust
code (slice length mismatch or out-of-bounds slice index), or non-termination
of the while loop. -/
inductive ReadOutcome where
  | ok : List Nat → CacheState → ReadOutcome
  | err : PmtError → ReadOutcome
  | crash : ReadOutcome
  | diverge : ReadOutcome
deriving DecidableEq, Repr

/-- The output buffer vec with a chunk copied in at a position
(out of bounds positions keep the previous buffer content; the callers
guard exactly as the Rust slice operations do). -/
def writeF (out : Nat → Nat) (pos : Nat) (chunk : List Nat) : Nat → Nat :=
  fun i => if pos ≤ i ∧ i < pos + chunk.length then chunk.getD (i - pos) 0 else out i

/-- Subslice bytes[rel..rel+take] (callers guard rel + take ≤ bytes.length,
as the Rust indexing panics otherwise). -/
def sliceBytes (bytes : List Nat) (rel take : Nat) : List Nat :=
  (bytes.drop rel).take take

/-- The while loop of CachedHttpBackend::read, on fuel.  Each arm mirrors one
arm of the source: a gap before the next cached span is fetched; a covering
span with a present file is copied from disk; a covering span with a missing
file has its stale index entry removed and is re-fetched; with no span at all
the whole remaining range is fetched.  copy_from_slice panics (crash) when the
fetched body length differs from the destination slice length, and the file
branch panics when the recorded span extends past the actual file bytes. -/
def readLoop (server : Nat → Nat → HttpResp) (offset length : Nat)
    (fuel cursor : Nat) (out : Nat → Nat) (st : CacheState) : ReadOutcome :=
  if cursor < offset + length then
    match fuel with
    | 0 => .diverge
    | fuel + 1 =>
      match get_next_range_at_or_after st.index cursor with
      | some (s, l) =>
        if cursor < s then
          let gap := min (s - cursor) (offset + length - cursor)
          match fetch_and_store server st cursor gap with
          | .error e => .err e
          | .ok (fetched, st') =>
            if fetched.length = gap then
              readLoop server offset length fuel (cursor + gap)
                (writeF out (cursor - offset) fetched) st'
            else .crash
        else
          match lookupFile st.files (s, l) with
          | some bytes =>
            let take := min (s + l) (offset + length) - cursor
            let rel := cursor - s
            if rel + take ≤ bytes.length then
              readLoop server offset length fuel (cursor + take)
                (writeF out (cursor - offset) (sliceBytes bytes rel take)) st
            else .crash
          | none =>
            let st₁ := removeIdx st s
            let take := min (s + l) (offset + length) - cursor
            match fetch_and_store server st₁ cursor take with
            | .error e => .err e
            | .ok (fetched, st') =>
              if fetched.length = take then
                readLoop server offset length fuel (cursor + take)
                  (writeF out (cursor - offset) fetched) st'
              else .crash
      | none =>
        let gap := offset + length - cursor
        match fetch_and_store server st cursor gap with
        | .error e => .err e
        | .ok (fetched, st') =>
          if fetched.length = gap then
            readLoop server offset length fuel (offset + length)
              (writeF out (cursor - offset) fetched) st'
          else .crash
    else .ok ((List.range length).map out) st

/-- CachedHttpBackend::read.  The loop advances the cursor by at least one
byte per iteration whenever every indexed span has positive length, so fuel
length + 1 is enough; exhausted fuel faithfully reports the real loop's
non-termination. -/
def cachedRead (server : Nat → Nat → HttpResp) (st : CacheState)
    (offset length : Nat) : ReadOutcome :=
  readLoop server offset length (length + 1) offset (fun _ => 0) st

/-- The bytes of the remote source on [offset, offset + length). -/
def sourceRange (src : Nat → Nat) (offset length : Nat) : List Nat :=
  (List.range length).map (fun i => src (offset + i))

/-- An immutable remote source behind a correct range server: every range
request is answered 206 with exactly the requested bytes. -/
def idealServer (src : Nat → Nat) : Nat → Nat → HttpResp :=
  fun offset length => ⟨206, sourceRange src offset length⟩

/-! ### URL sanitization (sanitize_for_fs) -/

/-- Rust char::is_ascii_alphanumeric. -/
def isAsciiAlphanumeric (c : Char) : Bool :=
  (97 ≤ c.toNat ∧ c.toNat ≤ 122) ∨ (65 ≤ c.toNat ∧ c.toNat ≤ 90) ∨
    (48 ≤ c.toNat ∧ c.toNat ≤ 57)

/-- sanitize_for_fs: map every non-alphanumeric character to an underscore. -/
def sanitize_for_fs (input : String) : String :=
  String.mk (input.data.map (fun c => if isAsciiAlphanumeric c then c else '_'))

/-- The per-URL cache directory chosen by CachedHttpBackend::try_from:
cache_root joined with the sanitized URL. -/
def url_folder (cache_root url : String) : String :=
  cache_root ++ "/" ++ sanitize_for_fs url

/-- The sled tree name chosen by CachedHttpBackend::try_from. -/
def tree_name (url : String) : String :=
  sanitize_for_fs url

/-! ### Tile geometry (tiles_for_bbox_and_res and the example schema) -/

/-- A 2d point (galileo_types Point2, used only through its accessors). -/
structure Point2 where
  x : ℚ
  y : ℚ
deriving DecidableEq, Repr

/-- An axis-aligned rectangle (galileo_types Rect, used only through its
edge accessors). -/
structure Rect where
  x_min : ℚ
  y_min : ℚ
  x_max : ℚ
  y_max : ℚ
deriving DecidableEq, Repr

/-- Vertical axis direction of a tile schema. -/
inductive VerticalDirection where
  | TopToBottom
  | BottomToTop
deriving DecidableEq, Repr

/-- One level of detail of the pyramid. -/
structure Lod where
  resolution : ℚ
  level : Nat
deriving DecidableEq, Repr

/-- The tile schema fields used by the embedded code. -/
structure TileSchema where
  origin : Point2
  bounds : Rect
  lods : List Lod
  tile_width : Nat
  tile_height : Nat
  y_direction : VerticalDirection
deriving DecidableEq, Repr

/-- A tile index (x, y, zoom). -/
structure TileIndex where
  x : Int
  y : Int
  z : Nat
deriving DecidableEq, Repr

/-- Truncation toward zero, the rounding of a Rust float-to-integer cast. -/
def ratTrunc (q : ℚ) : Int :=
  if q < 0 then -(Rat.floor (-q)) else Rat.floor q

/-- Saturation of a Rust f64-to-i32 cast (the cast clamps to the i32 range). -/
def i32cast (n : Int) : Int :=
  max (-(2 ^ 31)) (min (2 ^ 31 - 1) n)

/-- Rust f64 remainder: a - trunc(a / b) * b, with the sign of the dividend. -/
def fmodQ (a b : ℚ) : ℚ :=
  a - (ratTrunc (a / b) : ℚ) * b

/-- The integers of a Rust inclusive range a..=b as a list. -/
def intRange (a b : Int) : List Int :=
  (List.range (b + 1 - a).toNat).map (fun i => a + Int.ofNat i)

/-- tiles_for_bbox_and_res from pmtiles_http_cache.rs: the tile indices of one
zoom level covering a bounding box, with the off-by-one correction (tolerance
0.001 map units) when the maximal edge lands on a tile boundary.  The f64
arithmetic of the source is modelled exactly on the rationals. -/
def tiles_for_bbox_and_res (schema : TileSchema) (bbox : Rect)
    (resolution : ℚ) (z : Nat) : List TileIndex :=
  let tile_w := resolution * (schema.tile_width : ℚ)
  let tile_h := resolution * (schema.tile_height : ℚ)
  let x_adj : ℚ → ℚ := fun x => x - schema.origin.x
  let y_adj : ℚ → ℚ := fun y =>
    match schema.y_direction with
    | .TopToBottom => schema.origin.y - y
    | .BottomToTop => y - schema.origin.y
  let x_min := i32cast (Rat.floor (x_adj bbox.x_min / tile_w))
  let x_max_adj := x_adj bbox.x_max
  let x_add_one : Int := if fmodQ x_max_adj tile_w < 1 / 1000 then -1 else 0
  let x_max := i32cast (ratTrunc (x_max_adj / tile_w)) + x_add_one
  let tb : ℚ × ℚ :=
    match schema.y_direction with
    | .TopToBottom => (bbox.y_min, bbox.y_max)
    | .BottomToTop => (bbox.y_max, bbox.y_min)
  let y_min := i32cast (ratTrunc (y_adj tb.2 / tile_h))
  let y_max_adj := y_adj tb.1
  let y_add_one : Int := if fmodQ y_max_adj tile_h < 1 / 1000 then -1 else 0
  let y_max := i32cast (ratTrunc (y_max_adj / tile_h)) + y_add_one
  (intRange x_min x_max).flatMap
    (fun x => (intRange y_min y_max).map (fun y => ⟨x, y, z⟩))

/-- The top resolution of the example schema (examples/pmtiles.rs). -/
def topResolution : ℚ := 156543.03392800014 / 4

/-- The halving loop of the example's tile_schema function: each level's
resolution is half the previous level's. -/
def halvingLods (r : ℚ) (lvl n : Nat) : List Lod :=
  match n with
  | 0 => []
  | n + 1 => ⟨r, lvl⟩ :: halvingLods (r / 2) (lvl + 1) n

/-- The WebMercator tile schema of examples/pmtiles.rs: 1024 by 1024 pixel
tiles, origin at the top-left corner of the ±20037508.342787 bounds, top
resolution 156543.03392800014 / 4 halving per level (16 levels). -/
def exampleSchema : TileSchema :=
  { origin := ⟨-20037508.342787, 20037508.342787⟩
    bounds := ⟨-20037508.342787, -20037508.342787, 20037508.342787, 20037508.342787⟩
    lods := halvingLods topResolution 0 16
    tile_width := 1024
    tile_height := 1024
    y_direction := .TopToBottom }

/-- Modelled from the spec: TileSchema lod lookup (the tile_schema module is
not among the provided sources).  Spec 4.1: resolution(z) looks up the Lod
for level z and fails if absent. -/
def lod_resolution (schema : TileSchema) (z : Nat) : Option ℚ :=
  (schema.lods.find? (fun l => l.level = z)).map Lod.resolution

/-- Modelled from the spec: TileSchema::tile_bbox (the tile_schema module is
not among the provided sources).  Spec 4.1: the rectangle from
origin.x + x * tile_w to origin.x + (x + 1) * tile_w horizontally, and
vertically on the side of the origin selected by y_direction, with
tile_w = resolution(z) * tile_width and correspondingly for the height;
it fails when level z has no Lod. -/
def tile_bbox (schema : TileSchema) (idx : TileIndex) : Option Rect :=
  match lod_resolution schema idx.z with
  | none => none
  | some res =>
    let tw := res * (schema.tile_width : ℚ)
    let th := res * (schema.tile_height : ℚ)
    match schema.y_direction with
    | .TopToBottom =>
      some ⟨schema.origin.x + idx.x * tw, schema.origin.y - (idx.y + 1) * th,
            schema.origin.x + (idx.x + 1) * tw, schema.origin.y - idx.y * th⟩
    | .BottomToTop =>
      some ⟨schema.origin.x + idx.x * tw, schema.origin.y + idx.y * th,
            schema.origin.x + (idx.x + 1) * tw, schema.origin.y + (idx.y + 1) * th⟩

/-- Modelled from the spec: Rect::intersects of galileo_types (not among the
provided sources); two axis-aligned rectangles intersect when they overlap in
both axes. -/
def rectIntersects (a b : Rect) : Bool :=
  a.x_min ≤ b.x_max ∧ b.x_min ≤ a.x_max ∧ a.y_min ≤ b.y_max ∧ b.y_min ≤ a.y_max

/-! ### Vector tile load path (src/galileo/src/layer/pmtiles.rs) -/

/-- Tile load errors surfaced by the vector loader. -/
inductive TileLoadError where
  | Network
  | Decoding
deriving DecidableEq, Repr

/-- The post-fetch part of the VectorTileLoader load implementation for
PmtilesTileLoader: a payload longer than two bytes starting with the gzip
magic bytes 0x1F 0x8B is gunzipped first, anything else is decoded as-is;
a gunzip failure or a vector-tile decode failure is a Decoding error.
The external gzip decoder and MvtTile decoder are parameters. -/
def loadVector {Tile : Type} (gunzip : List Nat → Option (List Nat))
    (decode : List Nat → Option Tile) (bytes : List Nat) :
    Except TileLoadError Tile :=
  let stage : Except TileLoadError (List Nat) :=
    if 2 < bytes.length ∧ bytes.take 2 = [0x1F, 0x8B] then
      match gunzip bytes with
      | none => .error .Decoding
      | some d => .ok d
    else .ok bytes
  match stage with
  | .error e => .error e
  | .ok b =>
    match decode b with
    | none => .error .Decoding
    | some t => .ok t

/-! ### Displayed tiles (src/galileo/src/layer/tiles.rs) -/

/-- A displayed tile: index, render-ready bundle, style, opacity and the
instant it was first displayed.  Bundles and style ids are type parameters;
f32 opacity and instants become exact rationals (seconds). -/
structure DisplayedTile (B S : Type) where
  index : TileIndex
  bundle : B
  style_id : S
  opacity : ℚ
  displayed_at : ℚ
deriving DecidableEq, Repr

/-- DisplayedTile::is_opaque: opacity at least 0.999. -/
def opaqueEnough {B S : Type} (d : DisplayedTile B S) : Bool :=
  999 / 1000 ≤ d.opacity

/-- TilesContainer::requires_animation: the configured fade-in duration in
milliseconds exceeds 1. -/
def requires_animation (fade_millis : Nat) : Bool :=
  1 < fade_millis

/-- The opacity refresh applied to a needed, not yet opaque displayed tile:
elapsed seconds since first display over the fade-in duration in seconds,
clamped to 1; when the fade-in duration is at most one millisecond the
opacity snaps to 1.  Instant::duration_since saturates at zero. -/
def refreshTile {B S : Type} (fade_millis : Nat) (now : ℚ)
    (d : DisplayedTile B S) : DisplayedTile B S :=
  let fade_in_secs : ℚ := (fade_millis : ℚ) / 1000
  { d with opacity :=
      if 1 / 1000 < fade_in_secs then
        min (max (now - d.displayed_at) 0 / fade_in_secs) 1
      else 1 }

/-- iter_mut().find followed by an in-place mutation: the first element
satisfying the predicate is returned as it was found, and the list carries
the mutated element in its place. -/
def updateFirst {α : Type} (p : α → Bool) (f : α → α) :
    List α → Option α × List α
  | [] => (none, [])
  | x :: xs =>
    if p x then (some x, f x :: xs)
    else
      let r := updateFirst p f xs
      (r.1, x :: r.2)

/-- Whether a displayed tile matches a needed index under the call's style. -/
def matchesIdx {B S : Type} [DecidableEq S] (idx : TileIndex) (style : S)
    (d : DisplayedTile B S) : Bool :=
  d.index = idx ∧ d.style_id = style

/-- The loop state of update_displayed_tiles: the (mutated) displayed list,
the needed tiles collected so far, the substitution candidates, and the
redraw flag. -/
structure StepState (B S : Type) where
  displayed : List (DisplayedTile B S)
  needed_tiles : List (DisplayedTile B S)
  to_substitute : List TileIndex
  redraw : Bool
deriving DecidableEq, Repr

/-- The first loop of TilesContainer::update_displayed_tiles, over the needed
indices.  A needed index already displayed under this style refreshes the
found tile's opacity when it is not yet opaque (and is then a substitution
candidate and forces a redraw) and contributes the (updated) tile to the
needed set.  A needed index not displayed asks the provider: with no bundle
it is only a substitution candidate; with a bundle a fresh tile is admitted
at opacity 0 when fade-in is enabled, else 1. -/
def processNeeded {B S : Type} [DecidableEq S]
    (provider : TileIndex → S → Option B) (fade_millis : Nat) (now : ℚ)
    (style : S) : List TileIndex → StepState B S → StepState B S
  | [], s => s
  | idx :: rest, s =>
    let g := fun d => if opaqueEnough d then d else refreshTile fade_millis now d
    match updateFirst (matchesIdx idx style) g s.displayed with
    | (some d, disp') =>
      let s' :=
        if opaqueEnough d then
          { s with displayed := disp', needed_tiles := s.needed_tiles ++ [d] }
        else
          { s with displayed := disp',
                   needed_tiles := s.needed_tiles ++ [g d],
                   to_substitute := s.to_substitute ++ [idx],
                   redraw := true }
      processNeeded provider fade_millis now style rest s'
    | (none, _) =>
      match provider idx style with
      | none =>
        processNeeded provider fade_millis now style rest
          { s with to_substitute := s.to_substitute ++ [idx] }
      | some bundle =>
        let opacity : ℚ := if requires_animation fade_millis then 0 else 1
        processNeeded provider fade_millis now style rest
          { s with
            needed_tiles := s.needed_tiles ++ [⟨idx, bundle, style, opacity, now⟩],
            to_substitute := s.to_substitute ++ [idx],
            redraw := true }

/-- The sweep predicate of update_displayed_tiles: a displayed tile not
matched by any needed tile survives exactly when its bounding box is known
and intersects the bounding box of some substitution candidate. -/
def sweepKeep {B S : Type} [DecidableEq S] (schema : TileSchema)
    (needed_tiles : List (DisplayedTile B S)) (to_substitute : List TileIndex)
    (d : DisplayedTile B S) : Bool :=
  !(needed_tiles.any (fun n => n.index = d.index ∧ n.style_id = d.style_id)) &&
    (match tile_bbox schema d.index with
     | none => false
     | some bb =>
       to_substitute.any (fun si =>
         match tile_bbox schema si with
         | none => false
         | some sb => rectIntersects bb sb))

/-- TilesContainer::update_displayed_tiles: process the needed indices, then
retain the displayed tiles kept by the sweep followed by the needed tiles;
returns the new displayed list and the redraw flag. -/
def update_displayed_tiles {B S : Type} [DecidableEq S]
    (provider : TileIndex → S → Option B) (schema : TileSchema)
    (fade_millis : Nat) (tiles : List (DisplayedTile B S))
    (needed : List TileIndex) (style : S) (now : ℚ) :
    List (DisplayedTile B S) × Bool :=
  let s := processNeeded provider fade_millis now style needed ⟨tiles, [], [], false⟩
  let retained := s.displayed.filter (sweepKeep schema s.needed_tiles s.to_substitute)
  (retained ++ s.needed_tiles, s.redraw)

/-! ### Lemmas about the range cache -/

/-- All spans recorded in an index have positive length (as every span the
code records does). -/
def goodIndex (idx : List (Nat × Nat)) : Prop :=
  ∀ e ∈ idx, 0 < e.2

/-- Every indexed span whose backing file is present holds exactly the bytes
of the source at that span. -/
def goodFiles (src : Nat → Nat) (idx : List (Nat × Nat))
    (files : List ((Nat × Nat) × List Nat)) : Prop :=
  ∀ e ∈ idx, ∀ b, lookupFile files e = some b → b = sourceRange src e.1 e.2

/-- Every indexed span's backing file is present. -/
def allFilesPresent (idx : List (Nat × Nat))
    (files : List ((Nat × Nat) × List Nat)) : Prop :=
  ∀ e ∈ idx, lookupFile files e ≠ none

theorem headSomeMem {α : Type} {l : List α} {x : α} (h : l.head? = some x) :
    x ∈ l := by
  cases l <;> simp_all

theorem lastSomeMem {α : Type} {l : List α} {x : α} (h : l.getLast? = some x) :
    x ∈ l := by
  obtain ⟨hne, rfl⟩ := List.mem_getLast?_eq_getLast (Option.mem_def.mpr h)
  exact List.getLast_mem hne

theorem getNext_mem {idx : List (Nat × Nat)} {a : Nat} {e : Nat × Nat}
    (h : get_next_range_at_or_after idx a = some e) : e ∈ idx := by
  unfold get_next_range_at_or_after at h
  split at h
  · split at h
    · cases h
      next heq _ => exact (List.mem_filter.mp (lastSomeMem heq)).1
    · exact (List.mem_filter.mp (headSomeMem h)).1
  · exact (List.mem_filter.mp (headSomeMem h)).1

theorem getNext_progress {idx : List (Nat × Nat)} {a s l : Nat}
    (h : get_next_range_at_or_after idx a = some (s, l)) (hs : s ≤ a)
    (hl : 0 < l) : a < s + l := by
  unfold get_next_range_at_or_after at h
  have fromHead : ((idx.filter (fun e => a ≤ e.1)).head? = some (s, l)) → a < s + l := by
    intro hh
    have := (List.mem_filter.mp (headSomeMem hh)).2
    simp only [decide_eq_true_eq] at this
    omega
  split at h
  · split at h
    · cases h
      next hc => omega
    · exact fromHead h
  · exact fromHead h

theorem insertIdx_mem {idx : List (Nat × Nat)} {k v : Nat} {e : Nat × Nat}
    (h : e ∈ insertIdx idx k v) : e = (k, v) ∨ e ∈ idx := by
  induction idx with
  | nil => simpa [insertIdx] using h
  | cons hd t ih =>
    unfold insertIdx at h
    split at h
    · rcases List.mem_cons.mp h with h | h
      · exact Or.inl h
      · exact Or.inr h
    · split at h
      · rcases List.mem_cons.mp h with h | h
        · exact Or.inl h
        · exact Or.inr (List.mem_cons_of_mem _ h)
      · rcases List.mem_cons.mp h with h | h
        · exact Or.inr (h ▸ List.mem_cons_self _ _)
        · rcases ih h with h' | h'
          · exact Or.inl h'
          · exact Or.inr (List.mem_cons_of_mem _ h')

theorem lookupFile_insert (fs : List ((Nat × Nat) × List Nat))
    (key : Nat × Nat) (bytes : List Nat) (key' : Nat × Nat) :
    lookupFile (insertFile fs key bytes) key' =
      if key' = key then some bytes else lookupFile fs key' := by
  simp [insertFile, lookupFile]

theorem sourceRange_length (src : Nat → Nat) (o l : Nat) :
    (sourceRange src o l).length = l := by
  simp [sourceRange]

theorem sourceRange_getD {src : Nat → Nat} {o l j : Nat} (h : j < l) :
    (sourceRange src o l).getD j 0 = src (o + j) := by
  simp [sourceRange, List.getD_eq_getElem?_getD, List.getElem?_map,
    List.getElem?_range, h]

theorem goodIndex_insert {idx : List (Nat × Nat)} (hp : goodIndex idx)
    {o l : Nat} (hl : 0 < l) : goodIndex (insertIdx idx o l) := by
  intro e he
  rcases insertIdx_mem he with rfl | hmem
  · exact hl
  · exact hp e hmem

theorem goodIndex_filter {idx : List (Nat × Nat)} (hp : goodIndex idx)
    (p : Nat × Nat → Bool) : goodIndex (idx.filter p) := by
  intro e he
  exact hp e (List.mem_filter.mp he).1

theorem goodFiles_fetch (src : Nat → Nat) {idx : List (Nat × Nat)}
    {files : List ((Nat × Nat) × List Nat)} (hf : goodFiles src idx files)
    (o l : Nat) :
    goodFiles src (insertIdx idx o l)
      (insertFile files (o, l) (sourceRange src o l)) := by
  intro e he b hb
  rw [lookupFile_insert] at hb
  by_cases hk : e = (o, l)
  · rw [if_pos hk] at hb
    cases hb
    rw [hk]
  · rw [if_neg hk] at hb
    rcases insertIdx_mem he with h' | h'
    · exact absurd h' hk
    · exact hf e h' b hb

theorem goodFiles_filter (src : Nat → Nat) {idx : List (Nat × Nat)}
    {files : List ((Nat × Nat) × List Nat)} (hf : goodFiles src idx files)
    (p : Nat × Nat → Bool) : goodFiles src (idx.filter p) files := by
  intro e he
  exact hf e (List.mem_filter.mp he).1

theorem fetch_ideal (src : Nat → Nat) (st : CacheState) (offset length : Nat) :
    fetch_and_store (idealServer src) st offset length =
      .ok (sourceRange src offset length,
        record_range
          { st with
              files := insertFile st.files (offset, length)
                (sourceRange src offset length),
              fetchLog := st.fetchLog ++ [(offset, length)] }
          offset length) := by
  simp [fetch_and_store, idealServer, sourceRange_length]

theorem sliceBytes_length {bytes : List Nat} {rel take : Nat}
    (h : rel + take ≤ bytes.length) :
    (sliceBytes bytes rel take).length = take := by
  simp [sliceBytes]
  omega

theorem sliceBytes_getD {bytes : List Nat} {rel take j : Nat} (hj : j < take) :
    (sliceBytes bytes rel take).getD j 0 = bytes.getD (rel + j) 0 := by
  simp [sliceBytes, List.getD_eq_getElem?_getD, List.getElem?_take,
    List.getElem?_drop, hj]

theorem writeF_getD (src : Nat → Nat) (offset : Nat) {out : Nat → Nat}
    {pos : Nat} {chunk : List Nat}
    (hout : ∀ i, i < pos → out i = src (offset + i))
    (hchunk : ∀ j, j < chunk.length → chunk.getD j 0 = src (offset + pos + j)) :
    ∀ i, i < pos + chunk.length → writeF out pos chunk i = src (offset + i) := by
  intro i hi
  unfold writeF
  by_cases hp : pos ≤ i
  · rw [if_pos ⟨hp, hi⟩]
    have h2 : offset + pos + (i - pos) = offset + i := by omega
    rw [hchunk (i - pos) (by omega), h2]
  · rw [if_neg (by omega)]
    exact hout i (by omega)

theorem rangeMap_eq_sourceRange (src : Nat → Nat) (offset length : Nat)
    {out : Nat → Nat} (h : ∀ i, i < length → out i = src (offset + i)) :
    (List.range length).map out = sourceRange src offset length := by
  unfold sourceRange
  exact List.map_congr_left (fun a ha => h a (List.mem_range.mp ha))

/-- Correctness of the read loop against an ideal range server: from any
well-formed mid-loop state (positive span lengths; every present span file
exact) with a correct already-written prefix, the loop returns exactly the
source bytes of the requested range, preserves well-formedness, and only
appends to the ghost logs. -/
theorem readLoop_ideal (src : Nat → Nat) (offset length : Nat) :
    ∀ (fuel cursor : Nat) (out : Nat → Nat) (st : CacheState),
      goodIndex st.index → goodFiles src st.index st.files →
      offset ≤ cursor → cursor ≤ offset + length →
      offset + length - cursor ≤ fuel →
      (∀ i, i < cursor - offset → out i = src (offset + i)) →
      ∃ st', readLoop (idealServer src) offset length fuel cursor out st =
          ReadOutcome.ok (sourceRange src offset length) st' ∧
        goodIndex st'.index ∧ goodFiles src st'.index st'.files ∧
        st.fetchLog <+: st'.fetchLog ∧ st.removeLog <+: st'.removeLog := by
  intro fuel
  induction fuel with
  | zero =>
    intro cursor out st hgi hgf hoc hce hfuel hout
    have hc : ¬ cursor < offset + length := by omega
    refine ⟨st, ?_, hgi, hgf, List.prefix_rfl, List.prefix_rfl⟩
    rw [readLoop, if_neg hc]
    congr 1
    exact rangeMap_eq_sourceRange src offset length (fun i hi => hout i (by omega))
  | succ fuel ih =>
    intro cursor out st hgi hgf hoc hce hfuel hout
    by_cases hc : cursor < offset + length
    case neg =>
      refine ⟨st, ?_, hgi, hgf, List.prefix_rfl, List.prefix_rfl⟩
      rw [readLoop, if_neg hc]
      congr 1
      exact rangeMap_eq_sourceRange src offset length (fun i hi => hout i (by omega))
    case pos =>
      cases hg : get_next_range_at_or_after st.index cursor with
      | some e =>
        obtain ⟨s, l⟩ := e
        have hmem : (s, l) ∈ st.index := getNext_mem hg
        have hlpos : 0 < l := hgi (s, l) hmem
        by_cases hcs : cursor < s
        case pos =>
          -- gap before the next span: fetch the gap
          have hgap : 0 < min (s - cursor) (offset + length - cursor) := by omega
          obtain ⟨st', hrun, hgi', hgf', hpf, hpr⟩ :=
            ih (cursor + min (s - cursor) (offset + length - cursor))
              (writeF out (cursor - offset)
                (sourceRange src cursor (min (s - cursor) (offset + length - cursor))))
              (record_range
                { st with
                    files := insertFile st.files
                      (cursor, min (s - cursor) (offset + length - cursor))
                      (sourceRange src cursor
                        (min (s - cursor) (offset + length - cursor))),
                    fetchLog := st.fetchLog ++
                      [(cursor, min (s - cursor) (offset + length - cursor))] }
                cursor (min (s - cursor) (offset + length - cursor)))
              (goodIndex_insert hgi hgap) (goodFiles_fetch src hgf _ _)
              (by omega) (by omega) (by omega)
              (by
                intro i hi
                have h1 := @writeF_getD src offset out (cursor - offset)
                  (sourceRange src cursor
                    (min (s - cursor) (offset + length - cursor)))
                  (fun j hj => hout j hj)
                  (fun j hj => by
                    rw [sourceRange_getD (by
                      rw [sourceRange_length] at hj
                      exact hj)]
                    congr 1
                    omega)
                apply h1
                rw [sourceRange_length]
                omega)
          refine ⟨st', ?_, hgi', hgf',
            (List.prefix_append _ _).trans hpf, hpr⟩
          rw [readLoop, if_pos hc]
          simp only [hg, if_pos hcs, fetch_ideal, sourceRange_length, reduceIte]
          exact hrun
        case neg =>
          have hsc : s ≤ cursor := by omega
          have hcover : cursor < s + l := getNext_progress hg hsc hlpos
          have htake : 0 < min (s + l) (offset + length) - cursor := by omega
          cases hf : lookupFile st.files (s, l) with
          | some bytes =>
            -- covering span with a present file: copy from disk
            have hbytes : bytes = sourceRange src s l := hgf (s, l) hmem bytes hf
            have hblen : bytes.length = l := by
              rw [hbytes, sourceRange_length]
            have hguard : cursor - s + (min (s + l) (offset + length) - cursor) ≤
                bytes.length := by
              rw [hblen]
              omega
            obtain ⟨st', hrun, hgi', hgf', hpf, hpr⟩ :=
              ih (cursor + (min (s + l) (offset + length) - cursor))
                (writeF out (cursor - offset)
                  (sliceBytes bytes (cursor - s)
                    (min (s + l) (offset + length) - cursor)))
                st hgi hgf (by omega) (by omega) (by omega)
                (by
                  intro i hi
                  have hslen : (sliceBytes bytes (cursor - s)
                      (min (s + l) (offset + length) - cursor)).length =
                      min (s + l) (offset + length) - cursor :=
                    sliceBytes_length hguard
                  have h1 := @writeF_getD src offset out (cursor - offset)
                    (sliceBytes bytes (cursor - s)
                      (min (s + l) (offset + length) - cursor))
                    (fun j hj => hout j hj)
                    (fun j hj => by
                      rw [hslen] at hj
                      rw [sliceBytes_getD hj, hbytes,
                        sourceRange_getD (by omega)]
                      congr 1
                      omega)
                  apply h1
                  rw [hslen]
                  omega)
            refine ⟨st', ?_, hgi', hgf', hpf, hpr⟩
            rw [readLoop, if_pos hc]
            simp only [hg, if_neg hcs, hf, if_pos hguard]
            exact hrun
          | none =>
            -- stale index entry: remove it and re-fetch
            obtain ⟨st', hrun, hgi', hgf', hpf, hpr⟩ :=
              ih (cursor + (min (s + l) (offset + length) - cursor))
                (writeF out (cursor - offset)
                  (sourceRange src cursor (min (s + l) (offset + length) - cursor)))
                (record_range
                  { removeIdx st s with
                      files := insertFile (removeIdx st s).files
                        (cursor, min (s + l) (offset + length) - cursor)
                        (sourceRange src cursor
                          (min (s + l) (offset + length) - cursor)),
                      fetchLog := (removeIdx st s).fetchLog ++
                        [(cursor, min (s + l) (offset + length) - cursor)] }
                  cursor (min (s + l) (offset + length) - cursor))
                (goodIndex_insert (goodIndex_filter hgi _) htake)
                (goodFiles_fetch src (goodFiles_filter src hgf _) _ _)
                (by omega) (by omega) (by omega)
                (by
                  intro i hi
                  have h1 := @writeF_getD src offset out (cursor - offset)
                    (sourceRange src cursor
                      (min (s + l) (offset + length) - cursor))
                    (fun j hj => hout j hj)
                    (fun j hj => by
                      rw [sourceRange_getD (by
                        rw [sourceRange_length] at hj
                        exact hj)]
                      congr 1
                      omega)
                  apply h1
                  rw [sourceRange_length]
                  omega)
            refine ⟨st', ?_, hgi', hgf',
              (List.prefix_append _ _).trans hpf,
              (List.prefix_append _ _).trans hpr⟩
            rw [readLoop, if_pos hc]
            simp only [hg, if_neg hcs, hf, fetch_ideal, sourceRange_length,
              reduceIte]
            exact hrun
      | none =>
        -- no span at all: fetch the whole remaining range
        have hgap : 0 < offset + length - cursor := by omega
        obtain ⟨st', hrun, hgi', hgf', hpf, hpr⟩ :=
          ih (offset + length)
            (writeF out (cursor - offset)
              (sourceRange src cursor (offset + length - cursor)))
            (record_range
              { st with
                  files := insertFile st.files (cursor, offset + length - cursor)
                    (sourceRange src cursor (offset + length - cursor)),
                  fetchLog := st.fetchLog ++ [(cursor, offset + length - cursor)] }
              cursor (offset + length - cursor))
            (goodIndex_insert hgi hgap) (goodFiles_fetch src hgf _ _)
            (by omega) (by omega) (by omega)
            (by
              intro i hi
              have h1 := @writeF_getD src offset out (cursor - offset)
                (sourceRange src cursor (offset + length - cursor))
                (fun j hj => hout j hj)
                (fun j hj => by
                  rw [sourceRange_getD (by
                    rw [sourceRange_length] at hj
                    exact hj)]
                  congr 1
                  omega)
              apply h1
              rw [sourceRange_length]
              omega)
        refine ⟨st', ?_, hgi', hgf',
          (List.prefix_append _ _).trans hpf, hpr⟩
        rw [readLoop, if_pos hc]
        simp only [hg, fetch_ideal, sourceRange_length, reduceIte]
        exact hrun

/-! ### Claim theorems: range cache -/

/-- C1: for every read(offset, length) call on the range cache, against an
immutable remote source (every range request answered 206 with exactly the
requested bytes) and a cache state in which every indexed span's backing file
is present and holds exactly the source bytes at that span (spans having
positive length, as every span the code records does), the call succeeds and
returns exactly length bytes equal to the source bytes on
[offset, offset + length), assembled in increasing offset order from cached
pieces and gap fetches. -/
theorem range_cache_read_exact (src : Nat → Nat) (st : CacheState)
    (offset length : Nat) (hgi : goodIndex st.index)
    (hfiles : ∀ e ∈ st.index, lookupFile st.files e = some (sourceRange src e.1 e.2)) :
    ∃ st', cachedRead (idealServer src) st offset length =
        ReadOutcome.ok (sourceRange src offset length) st' ∧
      (sourceRange src offset length).length = length := by
  obtain ⟨st', hrun, _, _, _, _⟩ :=
    readLoop_ideal src offset length (length + 1) offset (fun _ => 0) st hgi
      (fun e he b hb => by
        rw [hfiles e he] at hb
        exact (Option.some_inj.mp hb).symm)
      (Nat.le_refl _) (by omega) (by omega)
      (fun i hi => absurd hi (by omega))
  exact ⟨st', hrun, sourceRange_length src offset length⟩

/-- Witness for C1 at a concrete input: source byte i is i + 10; the cache
already holds span (2, 3) with the correct file; reading (0, 7) succeeds. -/
theorem range_cache_read_exact_witness :
    ((∀ e ∈ ([(2, 3)] : List (Nat × Nat)), 0 < e.2) ∧
      ∀ e ∈ ([(2, 3)] : List (Nat × Nat)),
        lookupFile [((2, 3), [12, 13, 14])] e =
          some (sourceRange (fun i => i + 10) e.1 e.2)) ∧
    ∃ st', cachedRead (idealServer (fun i => i + 10))
        ⟨[(2, 3)], [((2, 3), [12, 13, 14])], [], []⟩ 0 7 =
        ReadOutcome.ok (sourceRange (fun i => i + 10) 0 7) st' ∧
      (sourceRange (fun i => i + 10) 0 7).length = 7 :=
  ⟨⟨by decide, by decide⟩,
    range_cache_read_exact (fun i => i + 10)
      ⟨[(2, 3)], [((2, 3), [12, 13, 14])], [], []⟩ 0 7
      (by unfold goodIndex; decide) (by decide)⟩

/-- C5: a read(offset, length) call that finds an indexed span covering its
starting cursor whose backing file is absent removes the stale index entry
(the removal log records the tree removal of key s), re-fetches the needed
sub-range from the network (the fetch log records the range request), and
returns the correct bytes with no error surfaced to the caller, the network
behaving as an immutable source. -/
theorem stale_index_self_heal (src : Nat → Nat) (st : CacheState)
    (offset length s l : Nat) (hgi : goodIndex st.index)
    (hgf : goodFiles src st.index st.files)
    (hg : get_next_range_at_or_after st.index offset = some (s, l))
    (hsc : s ≤ offset) (hf : lookupFile st.files (s, l) = none)
    (hlen : 0 < length) :
    ∃ st', cachedRead (idealServer src) st offset length =
        ReadOutcome.ok (sourceRange src offset length) st' ∧
      s ∈ st'.removeLog ∧
      (offset, min (s + l) (offset + length) - offset) ∈ st'.fetchLog := by
  have hmem : (s, l) ∈ st.index := getNext_mem hg
  have hlpos : 0 < l := hgi (s, l) hmem
  have hcover : offset < s + l := getNext_progress hg hsc hlpos
  have hc : offset < offset + length := by omega
  have htake : 0 < min (s + l) (offset + length) - offset := by omega
  obtain ⟨st', hrun, _, _, hpf, hpr⟩ :=
    readLoop_ideal src offset length length
      (offset + (min (s + l) (offset + length) - offset))
      (writeF (fun _ => 0) (offset - offset)
        (sourceRange src offset (min (s + l) (offset + length) - offset)))
      (record_range
        { removeIdx st s with
            files := insertFile (removeIdx st s).files
              (offset, min (s + l) (offset + length) - offset)
              (sourceRange src offset (min (s + l) (offset + length) - offset)),
            fetchLog := (removeIdx st s).fetchLog ++
              [(offset, min (s + l) (offset + length) - offset)] }
        offset (min (s + l) (offset + length) - offset))
      (goodIndex_insert (goodIndex_filter hgi _) htake)
      (goodFiles_fetch src (goodFiles_filter src hgf _) _ _)
      (by omega) (by omega) (by omega)
      (by
        intro i hi
        have h1 := @writeF_getD src offset (fun _ => 0) (offset - offset)
          (sourceRange src offset (min (s + l) (offset + length) - offset))
          (fun j hj => absurd hj (by omega))
          (fun j hj => by
            rw [sourceRange_getD (by
              rw [sourceRange_length] at hj
              exact hj)]
            congr 1
            omega)
        apply h1
        rw [sourceRange_length]
        omega)
  refine ⟨st', ?_, ?_, ?_⟩
  · unfold cachedRead
    rw [readLoop, if_pos hc]
    simp only [hg, if_neg (show ¬ offset < s by omega), hf, fetch_ideal,
      sourceRange_length, reduceIte]
    exact hrun
  · exact hpr.subset (by
      show s ∈ st.removeLog ++ [s]
      simp)
  · exact hpf.subset (by
      show _ ∈ st.fetchLog ++ [(offset, min (s + l) (offset + length) - offset)]
      simp)

/-- Witness for C5 at a concrete input: the index holds span (2, 3), its file
is missing, and reading (2, 3) self-heals. -/
theorem stale_index_self_heal_witness :
    ∃ st', cachedRead (idealServer (fun i => i + 10)) ⟨[(2, 3)], [], [], []⟩ 2 3 =
        ReadOutcome.ok (sourceRange (fun i => i + 10) 2 3) st' ∧
      2 ∈ st'.removeLog ∧ (2, min (2 + 3) (2 + 3) - 2) ∈ st'.fetchLog :=
  stale_index_self_heal (fun i => i + 10) ⟨[(2, 3)], [], [], []⟩ 2 3 2 3
    (by unfold goodIndex; decide) (by intro e he b hb; simp [lookupFile] at hb)
    (by decide) (by decide) (by decide) (by decide)

/-- C9: read is not total over all server and disk behaviours.  A 206
response body shorter than requested (which passes the too-long check) makes
the copy in read panic; an indexed span whose backing file exists but is
shorter than the recorded span length makes the slice indexing in read panic;
by contrast a longer-than-requested body is a returned error and a fully
missing file self-heals to a successful read. -/
theorem read_not_total_short_body_or_file :
    cachedRead (fun _ _ => ⟨206, [7]⟩) ⟨[], [], [], []⟩ 0 2 =
      ReadOutcome.crash ∧
    cachedRead (fun _ _ => ⟨206, []⟩) ⟨[(0, 2)], [((0, 2), [7])], [], []⟩ 0 2 =
      ReadOutcome.crash ∧
    cachedRead (fun _ _ => ⟨206, [1, 2, 3]⟩) ⟨[], [], [], []⟩ 0 2 =
      ReadOutcome.err (PmtError.ResponseBodyTooLong 3 2) ∧
    cachedRead (idealServer (fun i => i)) ⟨[(0, 2)], [], [], []⟩ 0 2 =
      ReadOutcome.ok (sourceRange (fun i => i) 0 2)
        ⟨[(0, 2)], [((0, 2), [0, 1])], [(0, 2)], [0]⟩ := by
  refine ⟨by decide, by decide, by decide, by decide⟩

/-! ### Claim theorems: fetch_and_store status handling -/

/-- C4 counterexample: a 404 response fails with the Http status error raised
by error_for_status, not with RangeRequestsUnsupported as the claim states. -/
theorem fetch_404_is_http_error_not_unsupported :
    fetch_and_store (fun _ _ => ⟨404, []⟩) ⟨[], [], [], []⟩ 0 10 =
      Except.error (PmtError.Http 404) ∧
    PmtError.Http 404 ≠ PmtError.RangeRequestsUnsupported := by
  refine ⟨by decide, by decide⟩

/-- C4 amended: a response whose status is neither an error status (4xx/5xx,
which error_for_status turns into an Http error first) nor 206 — for example
200 — makes fetch_and_store fail with RangeRequestsUnsupported. -/
theorem fetch_non_error_non_206_unsupported
    (server : Nat → Nat → HttpResp) (st : CacheState) (offset length : Nat)
    (hne : ¬ (400 ≤ (server offset length).status ∧
      (server offset length).status ≤ 599))
    (h206 : (server offset length).status ≠ 206) :
    fetch_and_store server st offset length =
      Except.error PmtError.RangeRequestsUnsupported := by
  unfold fetch_and_store
  rw [if_neg hne, if_pos h206]

/-- Witness for the amended C4 at status 200. -/
theorem fetch_non_error_non_206_unsupported_witness :
    fetch_and_store (fun _ _ => ⟨200, [1, 2]⟩) ⟨[], [], [], []⟩ 0 5 =
      Except.error PmtError.RangeRequestsUnsupported :=
  fetch_non_error_non_206_unsupported (fun _ _ => ⟨200, [1, 2]⟩)
    ⟨[], [], [], []⟩ 0 5 (by decide) (by decide)

/-! ### Claim theorems: URL sanitization -/

/-- C10: sanitize_for_fs maps every non-alphanumeric character to an
underscore and is therefore not injective: two distinct URLs differing only
in a slash versus a dot sanitize identically, so try_from derives the same
cache directory and the same sled tree name for both. -/
theorem sanitize_for_fs_not_injective :
    sanitize_for_fs "https://example.com/tiles.pmtiles" =
      sanitize_for_fs "https://example.com.tiles/pmtiles" ∧
    "https://example.com/tiles.pmtiles" ≠ "https://example.com.tiles/pmtiles" ∧
    (∀ root, url_folder root "https://example.com/tiles.pmtiles" =
      url_folder root "https://example.com.tiles/pmtiles") ∧
    tree_name "https://example.com/tiles.pmtiles" =
      tree_name "https://example.com.tiles/pmtiles" ∧
    ¬ Function.Injective sanitize_for_fs := by
  refine ⟨by decide, by decide, ?_, by decide, ?_⟩
  · intro root
    unfold url_folder
    rw [show sanitize_for_fs "https://example.com/tiles.pmtiles" =
      sanitize_for_fs "https://example.com.tiles/pmtiles" from by decide]
  · intro hinj
    have := hinj (show sanitize_for_fs "https://example.com/tiles.pmtiles" =
      sanitize_for_fs "https://example.com.tiles/pmtiles" from by decide)
    exact absurd this (by decide)

/-! ### Claim theorems: gzip detection in the vector tile load path -/

/-- C8 counterexample: the payload consisting of exactly the two gzip magic
bytes begins with the magic but is not decompressed (the code requires length
strictly greater than two): with a gzip decoder that fails on every input and
a tile decoder that succeeds, the load succeeds by decoding the payload
as-is, where the claim as stated demands the failing decompression path. -/
theorem gzip_exact_magic_decoded_as_is :
    List.take 2 [31, 139] = [31, 139] ∧
    loadVector (fun _ => none) (fun _ => some 0) [31, 139] =
      Except.ok 0 := by
  refine ⟨by decide, by decide⟩

/-- C8 amended: a payload longer than two bytes starting with the gzip magic
0x1F 0x8B is gunzipped and then decoded (either failure yielding Decoding);
any other payload — including the exact two-byte magic — is decoded as-is,
a decode failure yielding Decoding. -/
theorem gzip_detection (Tile : Type) (gunzip : List Nat → Option (List Nat))
    (decode : List Nat → Option Tile) (bytes : List Nat) :
    (2 < bytes.length → bytes.take 2 = [31, 139] →
      loadVector gunzip decode bytes =
        match gunzip bytes with
        | none => Except.error TileLoadError.Decoding
        | some d =>
          match decode d with
          | none => Except.error TileLoadError.Decoding
          | some t => Except.ok t) ∧
    (bytes.length ≤ 2 ∨ bytes.take 2 ≠ [31, 139] →
      loadVector gunzip decode bytes =
        match decode bytes with
        | none => Except.error TileLoadError.Decoding
        | some t => Except.ok t) := by
  constructor
  · intro h1 h2
    unfold loadVector
    rw [if_pos ⟨h1, h2⟩]
    cases gunzip bytes <;> simp
  · intro h
    unfold loadVector
    rw [if_neg (by
      rintro ⟨hl, ht⟩
      rcases h with h | h
      · omega
      · exact h ht)]

/-- Witness for the amended C8: a three-byte gzip-magic payload goes through
the decompression path. -/
theorem gzip_detection_witness :
    loadVector (fun _ => some [5]) (fun b : List Nat => some b.length)
      [31, 139, 0] = Except.ok 1 :=
  ((gzip_detection Nat (fun _ => some [5]) (fun b => some b.length)
    [31, 139, 0]).1 (by decide) (by decide)).trans (by decide)

/-! ### Claim theorems: tile covering geometry -/

theorem ratTrunc_nonneg {q : ℚ} (h : 0 ≤ q) : ratTrunc q = Rat.floor q := by
  unfold ratTrunc
  rw [if_neg (not_lt.mpr h)]

theorem i32cast_id {n : Int} (h1 : -(2 ^ 31) ≤ n) (h2 : n ≤ 2 ^ 31 - 1) :
    i32cast n = n := by
  unfold i32cast
  omega

theorem intRange_self (a : Int) : intRange a a = [a] := by
  unfold intRange
  have h : (a + 1 - a).toNat = 1 := by omega
  rw [h, show List.range 1 = [0] from rfl]
  simp

theorem intRange_nil {a b : Int} (h : b < a) : intRange a b = [] := by
  unfold intRange
  have h : (b + 1 - a).toNat = 0 := by omega
  rw [h]
  rfl

/-- C6: for the example schema (1024 by 1024 pixel tiles, WebMercator bounds
±20037508.342787, origin top-left, top resolution 156543.03392800014 / 4
halving per level), level 0 resolves to the top resolution and level 1 to its
half, and the tile covering of the full bounds is exactly the single tile
(0, 0, 0) at z = 0 and exactly the four tiles (x, y) in {0, 1} x {0, 1} at
z = 1. -/
theorem example_schema_coverage :
    lod_resolution exampleSchema 0 = some topResolution ∧
    lod_resolution exampleSchema 1 = some (topResolution / 2) ∧
    tiles_for_bbox_and_res exampleSchema exampleSchema.bounds topResolution 0 =
      [⟨0, 0, 0⟩] ∧
    tiles_for_bbox_and_res exampleSchema exampleSchema.bounds
        (topResolution / 2) 1 =
      [⟨0, 0, 1⟩, ⟨0, 1, 1⟩, ⟨1, 0, 1⟩, ⟨1, 1, 1⟩] := by
  refine ⟨by decide, by decide, by decide, by decide⟩

/-- C7 counterexample: the zero-area bounding box at the WebMercator origin
point (0, 0) is empty, yet the tile covering at z = 0 is the nonempty
sequence holding the single tile (0, 0, 0), not the empty sequence the claim
demands. -/
theorem zero_area_bbox_not_empty :
    (Rect.x_min ⟨0, 0, 0, 0⟩ = Rect.x_max ⟨0, 0, 0, 0⟩) ∧
    (Rect.y_min ⟨0, 0, 0, 0⟩ = Rect.y_max ⟨0, 0, 0, 0⟩) ∧
    tiles_for_bbox_and_res exampleSchema ⟨0, 0, 0, 0⟩ topResolution 0 =
      [⟨0, 0, 0⟩] ∧
    tiles_for_bbox_and_res exampleSchema ⟨0, 0, 0, 0⟩ topResolution 0 ≠ [] := by
  refine ⟨by decide, by decide, by decide, by decide⟩

/-- C7 amended: the covering computation never errors (it is a total
function), but an empty bounding box does not generally yield an empty
sequence.  First part: for a top-to-bottom schema, a zero-area bbox at a
point strictly inside a tile (both adjusted coordinates nonnegative and at
least the 0.001 tolerance away from the tile grid, tile indices within i32
range) yields exactly the single tile containing the point.  Second part: an
x-inverted bbox whose maximal edge falls in a strictly earlier tile column
than its minimal edge yields the empty sequence. -/
theorem tiles_for_bbox_degenerate :
    (∀ (schema : TileSchema) (p : Point2) (resolution : ℚ) (z : Nat),
      schema.y_direction = VerticalDirection.TopToBottom →
      0 ≤ p.x - schema.origin.x →
      0 ≤ schema.origin.y - p.y →
      1 / 1000 ≤ fmodQ (p.x - schema.origin.x)
        (resolution * (schema.tile_width : ℚ)) →
      1 / 1000 ≤ fmodQ (schema.origin.y - p.y)
        (resolution * (schema.tile_height : ℚ)) →
      -(2 ^ 31) ≤ Rat.floor ((p.x - schema.origin.x) /
        (resolution * (schema.tile_width : ℚ))) →
      Rat.floor ((p.x - schema.origin.x) /
        (resolution * (schema.tile_width : ℚ))) ≤ 2 ^ 31 - 1 →
      -(2 ^ 31) ≤ Rat.floor ((schema.origin.y - p.y) /
        (resolution * (schema.tile_height : ℚ))) →
      Rat.floor ((schema.origin.y - p.y) /
        (resolution * (schema.tile_height : ℚ))) ≤ 2 ^ 31 - 1 →
      0 < resolution * (schema.tile_width : ℚ) →
      0 < resolution * (schema.tile_height : ℚ) →
      tiles_for_bbox_and_res schema ⟨p.x, p.y, p.x, p.y⟩ resolution z =
        [⟨Rat.floor ((p.x - schema.origin.x) /
            (resolution * (schema.tile_width : ℚ))),
          Rat.floor ((schema.origin.y - p.y) /
            (resolution * (schema.tile_height : ℚ))), z⟩]) ∧
    (∀ (schema : TileSchema) (bbox : Rect) (resolution : ℚ) (z : Nat),
      0 ≤ bbox.x_max - schema.origin.x →
      0 < resolution * (schema.tile_width : ℚ) →
      Rat.floor ((bbox.x_max - schema.origin.x) /
          (resolution * (schema.tile_width : ℚ))) <
        Rat.floor ((bbox.x_min - schema.origin.x) /
          (resolution * (schema.tile_width : ℚ))) →
      -(2 ^ 31) ≤ Rat.floor ((bbox.x_max - schema.origin.x) /
        (resolution * (schema.tile_width : ℚ))) →
      Rat.floor ((bbox.x_min - schema.origin.x) /
        (resolution * (schema.tile_width : ℚ))) ≤ 2 ^ 31 - 1 →
      tiles_for_bbox_and_res schema bbox resolution z = []) := by
  constructor
  · intro schema p resolution z hdir hx0 hy0 hxm hym hxl hxu hyl hyu htw hth
    have hxq : 0 ≤ (p.x - schema.origin.x) /
        (resolution * (schema.tile_width : ℚ)) := div_nonneg hx0 htw.le
    have hyq : 0 ≤ (schema.origin.y - p.y) /
        (resolution * (schema.tile_height : ℚ)) := div_nonneg hy0 hth.le
    unfold tiles_for_bbox_and_res
    simp only [hdir]
    dsimp only
    rw [if_neg (not_lt.mpr hxm), if_neg (not_lt.mpr hym)]
    simp only [ratTrunc_nonneg hxq, ratTrunc_nonneg hyq,
      i32cast_id hxl hxu, i32cast_id hyl hyu, add_zero, intRange_self]
    simp
  · intro schema bbox resolution z hx0 htw hlt hxl hxu
    have hxq : 0 ≤ (bbox.x_max - schema.origin.x) /
        (resolution * (schema.tile_width : ℚ)) := div_nonneg hx0 htw.le
    unfold tiles_for_bbox_and_res
    dsimp only
    rw [ratTrunc_nonneg hxq,
      i32cast_id (by omega : -(2 ^ 31) ≤ Rat.floor ((bbox.x_max - schema.origin.x) /
        (resolution * (schema.tile_width : ℚ))))
        (by omega),
      i32cast_id (by omega : -(2 ^ 31) ≤ Rat.floor ((bbox.x_min - schema.origin.x) /
        (resolution * (schema.tile_width : ℚ))))
        (by omega)]
    rw [intRange_nil (by
      split
      · omega
      · omega)]
    simp

/-- Witness for the amended C7: at the example schema, the zero-area bbox at
the origin point (0, 0) yields the single containing tile, and the inverted
bbox running from x 30000000 back to x 0 yields the empty sequence. -/
theorem tiles_for_bbox_degenerate_witness :
    tiles_for_bbox_and_res exampleSchema ⟨0, 0, 0, 0⟩ topResolution 0 =
      [⟨Rat.floor ((0 - exampleSchema.origin.x) /
          (topResolution * (exampleSchema.tile_width : ℚ))),
        Rat.floor ((exampleSchema.origin.y - 0) /
          (topResolution * (exampleSchema.tile_height : ℚ))), 0⟩] ∧
    tiles_for_bbox_and_res exampleSchema ⟨30000000, 0, 0, 0⟩ (topResolution / 2) 1 =
      [] :=
  ⟨(tiles_for_bbox_degenerate.1 exampleSchema ⟨0, 0⟩ topResolution 0
      (by decide) (by decide) (by decide) (by decide) (by decide) (by decide)
      (by decide) (by decide) (by decide) (by decide) (by decide)),
    (tiles_for_bbox_degenerate.2 exampleSchema ⟨30000000, 0, 0, 0⟩
      (topResolution / 2) 1 (by decide) (by decide) (by decide) (by decide)
      (by decide))⟩

/-! ### Lemmas about the displayed tile reconciliation -/

theorem updateFirst_found {α : Type} {p : α → Bool} {f : α → α} :
    ∀ {l : List α} {d : α} {l' : List α},
      updateFirst p f l = (some d, l') → p d = true := by
  intro l
  induction l with
  | nil => intro d l' h; simp [updateFirst] at h
  | cons x xs ih =>
    intro d l' h
    unfold updateFirst at h
    by_cases hx : p x
    · rw [if_pos hx] at h
      obtain ⟨h1, _⟩ := Prod.mk.injEq .. ▸ h
      cases Option.some_inj.mp (by exact congrArg Prod.fst h : some x = some d)
      exact hx
    · rw [if_neg hx] at h
      rcases hr : updateFirst p f xs with ⟨found, ys⟩
      rw [hr] at h
      have h1 : found = some d := congrArg Prod.fst h
      exact ih (h1 ▸ hr)

theorem updateFirst_mem_of_not {α : Type} {p : α → Bool} {f : α → α} {d : α}
    (hd : p d = false) :
    ∀ {l : List α}, d ∈ l → d ∈ (updateFirst p f l).2 := by
  intro l
  induction l with
  | nil => intro h; simp at h
  | cons x xs ih =>
    intro h
    unfold updateFirst
    by_cases hx : p x
    · rw [if_pos hx]
      rcases List.mem_cons.mp h with rfl | h
      · rw [hd] at hx; cases hx
      · exact List.mem_cons_of_mem _ h
    · rw [if_neg hx]
      rcases List.mem_cons.mp h with rfl | h
      · exact List.mem_cons_self _ _
      · exact List.mem_cons_of_mem _ (ih h)

theorem refreshTile_index {B S : Type} (fade_millis : Nat) (now : ℚ)
    (d : DisplayedTile B S) :
    (refreshTile fade_millis now d).index = d.index ∧
    (refreshTile fade_millis now d).style_id = d.style_id := by
  constructor <;> rfl

theorem processNeeded_displayed_mem {B S : Type} [DecidableEq S]
    (provider : TileIndex → S → Option B) (fade_millis : Nat) (now : ℚ)
    (style : S) {d : DisplayedTile B S} :
    ∀ (needed : List TileIndex) (s : StepState B S),
      d ∈ s.displayed →
      (∀ idx ∈ needed, matchesIdx idx style d = false) →
      d ∈ (processNeeded provider fade_millis now style needed s).displayed := by
  intro needed
  induction needed with
  | nil =>
    intro s h _
    simpa [processNeeded] using h
  | cons idx rest ih =>
    intro s h hmatch
    unfold processNeeded
    rcases hfind : updateFirst (matchesIdx idx style)
        (fun d => if opaqueEnough d then d else refreshTile fade_millis now d)
        s.displayed with ⟨found, disp'⟩
    have hdisp' : d ∈ disp' := by
      have := @updateFirst_mem_of_not _ (matchesIdx idx style)
        (fun d => if opaqueEnough d then d else refreshTile fade_millis now d) d
        (hmatch idx (List.mem_cons_self _ _)) s.displayed h
      rwa [hfind] at this
    cases found with
    | some dd =>
      simp only [hfind]
      split
      · exact ih _ hdisp' (fun i hi => hmatch i (List.mem_cons_of_mem _ hi))
      · exact ih _ hdisp' (fun i hi => hmatch i (List.mem_cons_of_mem _ hi))
    | none =>
      simp only [hfind]
      cases hp : provider idx style with
      | none => exact ih _ h (fun i hi => hmatch i (List.mem_cons_of_mem _ hi))
      | some bundle => exact ih _ h (fun i hi => hmatch i (List.mem_cons_of_mem _ hi))

theorem processNeeded_needed_tiles {B S : Type} [DecidableEq S]
    (provider : TileIndex → S → Option B) (fade_millis : Nat) (now : ℚ)
    (style : S) :
    ∀ (needed : List TileIndex) (s : StepState B S) (n : DisplayedTile B S),
      n ∈ (processNeeded provider fade_millis now style needed s).needed_tiles →
      n ∈ s.needed_tiles ∨ ∃ idx ∈ needed, n.index = idx ∧ n.style_id = style := by
  intro needed
  induction needed with
  | nil =>
    intro s n h
    simp only [processNeeded] at h
    exact Or.inl h
  | cons idx rest ih =>
    intro s n h
    simp only [processNeeded] at h
    rcases hfind : updateFirst (matchesIdx idx style)
        (fun d => if opaqueEnough d then d else refreshTile fade_millis now d)
        s.displayed with ⟨found, disp'⟩
    rw [hfind] at h
    have hfound : ∀ dd, found = some dd →
        dd.index = idx ∧ dd.style_id = style := by
      intro dd hdd
      have := updateFirst_found (hdd ▸ hfind)
      simpa [matchesIdx] using this
    cases found with
    | some dd =>
      obtain ⟨hidx, hsty⟩ := hfound dd rfl
      by_cases hop : opaqueEnough dd
      · simp only [hop, if_pos] at h
        rcases ih _ n h with h' | h'
        · rcases List.mem_append.mp h' with h'' | h''
          · exact Or.inl h''
          · refine Or.inr ⟨idx, List.mem_cons_self _ _, ?_⟩
            rcases List.mem_singleton.mp h'' with rfl
            exact ⟨hidx, hsty⟩
        · obtain ⟨i, hi, hh⟩ := h'
          exact Or.inr ⟨i, List.mem_cons_of_mem _ hi, hh⟩
      · simp only [hop, if_neg, Bool.false_eq_true, not_false_iff] at h
        rcases ih _ n h with h' | h'
        · rcases List.mem_append.mp h' with h'' | h''
          · exact Or.inl h''
          · refine Or.inr ⟨idx, List.mem_cons_self _ _, ?_⟩
            rcases List.mem_singleton.mp h'' with rfl
            obtain ⟨h1, h2⟩ := refreshTile_index fade_millis now dd
            exact ⟨h1.trans hidx, h2.trans hsty⟩
        · obtain ⟨i, hi, hh⟩ := h'
          exact Or.inr ⟨i, List.mem_cons_of_mem _ hi, hh⟩
    | none =>
      cases hp : provider idx style with
      | none =>
        rw [hp] at h
        rcases ih _ n h with h' | h'
        · exact Or.inl h'
        · obtain ⟨i, hi, hh⟩ := h'
          exact Or.inr ⟨i, List.mem_cons_of_mem _ hi, hh⟩
      | some bundle =>
        rw [hp] at h
        rcases ih _ n h with h' | h'
        · rcases List.mem_append.mp h' with h'' | h''
          · exact Or.inl h''
          · refine Or.inr ⟨idx, List.mem_cons_self _ _, ?_⟩
            rcases List.mem_singleton.mp h'' with rfl
            exact ⟨rfl, rfl⟩
        · obtain ⟨i, hi, hh⟩ := h'
          exact Or.inr ⟨i, List.mem_cons_of_mem _ hi, hh⟩

/-! ### Claim theorems: substitution retention (update_displayed_tiles) -/

/-- C2 amended: a displayed tile matched by no needed index (under the call's
style) is retained by update_displayed_tiles exactly when its bounding box is
known and intersects the bounding box of some substitution candidate — and
the substitution candidates are all needed indices except those already
displayed and opaque: the unavailable ones, the still-fading ones, and the
freshly admitted ones alike. -/
theorem substitution_retention {B S : Type} [DecidableEq B] [DecidableEq S]
    (provider : TileIndex → S → Option B) (schema : TileSchema)
    (fade_millis : Nat) (tiles : List (DisplayedTile B S))
    (needed : List TileIndex) (style : S) (now : ℚ)
    (d : DisplayedTile B S) (hd : d ∈ tiles)
    (hnot : ∀ idx ∈ needed, ¬ (idx = d.index ∧ style = d.style_id)) :
    (d ∈ (update_displayed_tiles provider schema fade_millis tiles needed
        style now).1 ↔
      ∃ bb, tile_bbox schema d.index = some bb ∧
        ∃ si ∈ (processNeeded provider fade_millis now style needed
            ⟨tiles, [], [], false⟩).to_substitute,
          ∃ sb, tile_bbox schema si = some sb ∧ rectIntersects bb sb = true) := by
  have hmatch : ∀ idx ∈ needed, matchesIdx idx style d = false := by
    intro idx hidx
    have := hnot idx hidx
    simp only [matchesIdx, decide_eq_false_iff_not]
    rintro ⟨h1, h2⟩
    exact this ⟨h1.symm, h2.symm⟩
  have hdisp : d ∈ (processNeeded provider fade_millis now style needed
      ⟨tiles, [], [], false⟩).displayed :=
    processNeeded_displayed_mem provider fade_millis now style needed
      ⟨tiles, [], [], false⟩ hd hmatch
  have hnotneeded : ∀ n ∈ (processNeeded provider fade_millis now style needed
      ⟨tiles, [], [], false⟩).needed_tiles,
      ¬ (n.index = d.index ∧ n.style_id = d.style_id) := by
    intro n hn hcon
    rcases processNeeded_needed_tiles provider fade_millis now style needed
        ⟨tiles, [], [], false⟩ n hn with h' | h'
    · simp at h'
    · obtain ⟨i, hi, hni, hns⟩ := h'
      exact hnot i hi ⟨hni.symm.trans hcon.1, hns.symm.trans hcon.2⟩
  unfold update_displayed_tiles
  constructor
  · intro h
    rcases List.mem_append.mp h with h | h
    · have hkeep := (List.mem_filter.mp h).2
      unfold sweepKeep at hkeep
      rcases Bool.and_eq_true_iff.mp hkeep with ⟨_, h2⟩
      cases hbb : tile_bbox schema d.index with
      | none => rw [hbb] at h2; cases h2
      | some bb =>
        rw [hbb] at h2
        obtain ⟨si, hsi, hint⟩ := List.any_eq_true.mp h2
        cases hsb : tile_bbox schema si with
        | none => rw [hsb] at hint; cases hint
        | some sb =>
          rw [hsb] at hint
          exact ⟨bb, rfl, si, hsi, sb, hsb, hint⟩
    · exact absurd ⟨rfl, rfl⟩ (hnotneeded d h)
  · rintro ⟨bb, hbb, si, hsi, sb, hsb, hint⟩
    apply List.mem_append_left
    apply List.mem_filter.mpr
    refine ⟨hdisp, ?_⟩
    unfold sweepKeep
    apply Bool.and_eq_true_iff.mpr
    constructor
    · rw [Bool.not_eq_true', List.any_eq_false]
      intro n hn hcon
      simp only [decide_eq_true_eq] at hcon
      exact hnotneeded n hn hcon
    · rw [hbb]
      exact List.any_eq_true.mpr ⟨si, hsi, by rw [hsb]; exact hint⟩

/-- A small schema for concrete display scenarios: unit tiles, origin (0, 0),
levels 0 and 1. -/
def miniSchema : TileSchema :=
  { origin := ⟨0, 0⟩
    bounds := ⟨-10, -10, 10, 10⟩
    lods := [⟨1, 0⟩, ⟨1 / 2, 1⟩]
    tile_width := 1
    tile_height := 1
    y_direction := .TopToBottom }

/-- A provider with every tile available. -/
def totalProvider : TileIndex → Nat → Option Nat :=
  fun _ _ => some 7

/-- An old displayed tile at zoom 1 underneath the needed zoom 0 tile. -/
def oldTileZ1 : DisplayedTile Nat Nat := ⟨⟨0, 0, 1⟩, 5, 0, 1, 0⟩

/-- C2 counterexample: the old zoom 1 tile is not in the needed set, every
needed tile is available (the provider returns a bundle for it, so no needed
tile is unavailable), and yet the old tile is retained — because the freshly
admitted needed tile is a substitution candidate too.  The claim as stated
(retained iff intersecting an unavailable needed tile) demands the old tile
be dropped here. -/
theorem retained_despite_all_available :
    oldTileZ1.index ∉ [TileIndex.mk 0 0 0] ∧
    (∀ idx ∈ [TileIndex.mk 0 0 0], totalProvider idx 0 ≠ none) ∧
    oldTileZ1 ∈ (update_displayed_tiles totalProvider miniSchema 300
      [oldTileZ1] [⟨0, 0, 0⟩] 0 10).1 := by
  refine ⟨by decide, by decide, by decide⟩

/-- Witness for the amended C2 at the same scenario: the retention of the old
tile is equivalent to a bounding box intersection with some substitution
candidate. -/
theorem substitution_retention_witness :
    oldTileZ1 ∈ (update_displayed_tiles totalProvider miniSchema 300
        [oldTileZ1] [⟨0, 0, 0⟩] 0 10).1 ↔
      ∃ bb, tile_bbox miniSchema oldTileZ1.index = some bb ∧
        ∃ si ∈ (processNeeded totalProvider 300 10 0 [⟨0, 0, 0⟩]
            ⟨[oldTileZ1], [], [], false⟩).to_substitute,
          ∃ sb, tile_bbox miniSchema si = some sb ∧ rectIntersects bb sb = true :=
  substitution_retention totalProvider miniSchema 300 [oldTileZ1]
    [⟨0, 0, 0⟩] 0 10 oldTileZ1 (by decide) (by decide)

/-! ### Claim theorems: fade-in opacity (update_displayed_tiles) -/

/-- C3 amended: for a call with needed set [idx].  When the first displayed
tile matching (idx, style) is found and is not yet opaque (opacity below
0.999), the output holds its refresh: opacity min(t / D, 1) with t the
saturated elapsed time since first display and D the fade duration when D
exceeds one millisecond, snapping to 1 when D is one millisecond or less;
the refresh cannot decrease an opacity that respects the fade formula, and a
refresh with t at least D sets opacity exactly 1.  When the found tile is
already at opacity 0.999 or above it is passed through unchanged — so an
opacity that entered [0.999, 1) is frozen there and never reaches 1.  When no
displayed tile matches and the provider returns a bundle, the tile is
admitted with opacity 0 when D exceeds one millisecond, else 1. -/
theorem fade_in_opacity {B S : Type} [DecidableEq S]
    (provider : TileIndex → S → Option B) (schema : TileSchema)
    (fade_millis : Nat) (tiles : List (DisplayedTile B S)) (idx : TileIndex)
    (style : S) (now : ℚ) :
    (∀ (d : DisplayedTile B S) (disp' : List (DisplayedTile B S)),
      updateFirst (matchesIdx idx style)
          (fun t => if opaqueEnough t then t else refreshTile fade_millis now t)
          tiles = (some d, disp') →
      (opaqueEnough d = false →
        refreshTile fade_millis now d ∈
          (update_displayed_tiles provider schema fade_millis tiles [idx]
            style now).1 ∧
        (1 < fade_millis →
          (refreshTile fade_millis now d).opacity =
            min (max (now - d.displayed_at) 0 / ((fade_millis : ℚ) / 1000)) 1) ∧
        (fade_millis ≤ 1 → (refreshTile fade_millis now d).opacity = 1) ∧
        (1 < fade_millis →
          d.opacity ≤
            min (max (now - d.displayed_at) 0 / ((fade_millis : ℚ) / 1000)) 1 →
          d.opacity ≤ (refreshTile fade_millis now d).opacity) ∧
        (1 < fade_millis →
          (fade_millis : ℚ) / 1000 ≤ max (now - d.displayed_at) 0 →
          (refreshTile fade_millis now d).opacity = 1)) ∧
      (opaqueEnough d = true →
        d ∈ (update_displayed_tiles provider schema fade_millis tiles [idx]
          style now).1)) ∧
    (∀ (disp' : List (DisplayedTile B S)) (b : B),
      updateFirst (matchesIdx idx style)
          (fun t => if opaqueEnough t then t else refreshTile fade_millis now t)
          tiles = (none, disp') →
      provider idx style = some b →
      (⟨idx, b, style, if requires_animation fade_millis then 0 else 1, now⟩ :
          DisplayedTile B S) ∈
        (update_displayed_tiles provider schema fade_millis tiles [idx]
          style now).1) := by
  have hcast : ∀ hm : 1 < fade_millis, (1 : ℚ) / 1000 < (fade_millis : ℚ) / 1000 := by
    intro hm
    have h1000 : (0 : ℚ) < 1000 := by norm_num
    rw [div_lt_div_iff_of_pos_right h1000]
    exact_mod_cast hm
  have hcast' : ∀ hm : fade_millis ≤ 1,
      ¬ ((1 : ℚ) / 1000 < (fade_millis : ℚ) / 1000) := by
    intro hm
    have h1000 : (0 : ℚ) < 1000 := by norm_num
    rw [div_lt_div_iff_of_pos_right h1000, not_lt]
    exact_mod_cast hm
  constructor
  · intro d disp' hfind
    constructor
    · intro hop
      refine ⟨?_, ?_, ?_, ?_, ?_⟩
      · unfold update_displayed_tiles
        simp only [processNeeded, hfind, hop]
        simp [hop]
      · intro hm
        dsimp only [refreshTile]
        rw [if_pos (hcast hm)]
      · intro hm
        dsimp only [refreshTile]
        rw [if_neg (hcast' hm)]
      · intro hm hle
        dsimp only [refreshTile]
        rw [if_pos (hcast hm)]
        exact hle
      · intro hm hld
        have hD : (0 : ℚ) < (fade_millis : ℚ) / 1000 := by
          apply div_pos _ (by norm_num)
          exact_mod_cast Nat.lt_of_lt_of_le Nat.zero_lt_one hm.le
        have h1 : (1 : ℚ) ≤ max (now - d.displayed_at) 0 / ((fade_millis : ℚ) / 1000) :=
          (one_le_div hD).mpr hld
        dsimp only [refreshTile]
        rw [if_pos (hcast hm), min_eq_right h1]
    · intro hop
      unfold update_displayed_tiles
      simp only [processNeeded, hfind, hop]
      simp
  · intro disp' b hfind hp
    unfold update_displayed_tiles
    simp only [processNeeded, hfind, hp]
    simp

/-- C3 counterexample: with fade duration 1000 ms, a tile admitted at time 0
that is refreshed at 0.9995 s reaches opacity 0.9995 (at least 0.999, so it
now counts as opaque); the next call at 2 s — a full second past the fade
duration — leaves it at 0.9995 instead of the min(t / D, 1) = 1 the claim
demands, so opacity never reaches exactly 1. -/
theorem fade_frozen_below_one :
    (update_displayed_tiles totalProvider miniSchema 1000
        (update_displayed_tiles totalProvider miniSchema 1000
          (update_displayed_tiles totalProvider miniSchema 1000
            ([] : List (DisplayedTile Nat Nat)) [⟨0, 0, 0⟩] 0 0).1
          [⟨0, 0, 0⟩] 0 (1999 / 2000)).1
        [⟨0, 0, 0⟩] 0 2).1 =
      [⟨⟨0, 0, 0⟩, 7, 0, 1999 / 2000, 0⟩] ∧
    ((1999 : ℚ) / 2000) ≠ min ((2 - 0) / (((1000 : Nat) : ℚ) / 1000)) 1 := by
  refine ⟨by decide, by decide⟩

/-- A half-faded tile for the C3 witness: opacity 0.4, admitted at time 0. -/
def halfFadedTile : DisplayedTile Nat Nat := ⟨⟨0, 0, 0⟩, 7, 0, 2 / 5, 0⟩

/-- Witness for the amended C3: refreshing the half-faded tile at 0.7 s with
fade duration 1000 ms lands it in the output with opacity min(0.7 / 1, 1). -/
theorem fade_in_opacity_witness :
    refreshTile 1000 (7 / 10) halfFadedTile ∈
      (update_displayed_tiles totalProvider miniSchema 1000 [halfFadedTile]
        [⟨0, 0, 0⟩] 0 (7 / 10)).1 ∧
    (refreshTile 1000 (7 / 10) halfFadedTile).opacity =
      min (max (7 / 10 - halfFadedTile.displayed_at) 0 / (((1000 : Nat) : ℚ) / 1000)) 1 :=
  ⟨(((fade_in_opacity totalProvider miniSchema 1000 [halfFadedTile] ⟨0, 0, 0⟩ 0
        (7 / 10)).1 halfFadedTile [refreshTile 1000 (7 / 10) halfFadedTile]
        (by decide)).1 (by decide)).1,
    (((fade_in_opacity totalProvider miniSchema 1000 [halfFadedTile] ⟨0, 0, 0⟩ 0
        (7 / 10)).1 halfFadedTile [refreshTile 1000 (7 / 10) halfFadedTile]
        (by decide)).1 (by decide)).2.1 (by decide)⟩
